import Mathlib

/-!
Shallow embedding of `montyhall.py` (package `Montyhall`).

Python floats are modelled as exact rationals (`ℚ`), Python exceptions as an
explicit error type (`Except Err`), and the two sources of randomness
(`random.random()` and `random.choice`) as explicit input streams: a stream of
rational draws for the sampler, and a stream of naturals for `random.choice`,
where `choice(seq)` is modelled as `seq[pick k % len(seq)]` so that every pick
stream denotes one possible sequence of outcomes of the random chooser.
-/

set_option allowUnsafeReducibility true

attribute [semireducible] Rat.add Rat.sub Rat.mul Rat.inv

deriving instance DecidableEq for Except

/-- Python exception kinds raised by the code under study: `ValueError` (raised
explicitly, and by `min` of an empty sequence), `AssertionError` (from `assert`),
`ZeroDivisionError` (from division by an integer zero), and `IndexError`
(from `random.choice` on an empty sequence). -/
inductive Err
  | valueError
  | assertionError
  | zeroDivisionError
  | indexError
  deriving DecidableEq

/-- A door of the experiment: `label` (in the source an auto-assigned global
counter value or a caller-supplied label; here the counter value is passed in
explicitly) and an optional probability, `none` when the caller did not assign
one (Python `None`). -/
structure Door where
  label : ℕ
  probability : Option ℚ
  deriving DecidableEq

/-- Door equality in the source (`Door.__eq__`) compares labels only. -/
instance : BEq Door := ⟨fun a b => a.label == b.label⟩

/-- Default door used to totalise list indexing that the source performs only
at indices it knows to be in range. -/
def dummyDoor : Door := ⟨0, none⟩

/-- Embedding of `Door.__init__`: if a probability is given, `assert
0 < probability < 1`; the label is the explicit counter value. -/
def Door.init (probability : Option ℚ) (label : ℕ) : Except Err Door :=
  match probability with
  | some p => if 0 < p ∧ p < 1 then .ok ⟨label, some p⟩ else .error .assertionError
  | none => .ok ⟨label, none⟩

/-- Embedding of the namedtuple `MontyHallResult(success, correct, choices)`. -/
structure MontyHallResult where
  success : Bool
  correct : Door
  choices : List Door
  deriving DecidableEq

/-- A contestant strategy: maps (remaining doors, past selections) to the next
selection, as in the source's strategy contract. -/
def Strategy := List Door → List Door → Door

/-- The Boolean test `doors[i] in (correct, selections[-1])` from the host
elimination step of `experiment`. -/
def hostExcluded (doors : List Door) (correct last : Door) (i : ℕ) : Bool :=
  (doors.getD i dummyDoor == correct) || (doors.getD i dummyDoor == last)

/-- The candidate list `[i for i in door_indices if not doors[i] in
(correct, selections[-1])]` passed to `choice_func` in `experiment`. -/
def elimCandidates (doors : List Door) (idx : List ℕ) (correct last : Door) : List ℕ :=
  idx.filter (fun i => ! hostExcluded doors correct last i)

/-- The `while len(door_indices) > 2` loop of `experiment`.  `fuel` bounds the
number of iterations (the source's loop has no such bound; fuel insufficiency
is `none`, and `loop_fuel_congr` below shows any fuel of at least
`idx.length - 2` gives the same result, so the bound is immaterial).  `k`
indexes the pick stream; `choice_func(cands)` is `cands[pick k % len cands]`,
with `none` for the `IndexError` on an empty candidate list.  One iteration
removes the chosen index, then appends `strategy(remaining doors, selections)`
to the selections. -/
def experimentLoop (doors : List Door) (strat : Strategy) (pick : ℕ → ℕ) (correct : Door) :
    ℕ → ℕ → List ℕ → List Door → Option (List ℕ × List Door)
  | 0, _, idx, sels => if 2 < idx.length then none else some (idx, sels)
  | fuel + 1, k, idx, sels =>
    if 2 < idx.length then
      let cands := elimCandidates doors idx correct (sels.getLastD dummyDoor)
      match cands.get? (pick k % cands.length) with
      | none => none
      | some elim =>
        let idx2 := idx.erase elim
        experimentLoop doors strat pick correct fuel (k + 1) idx2
          (sels ++ [strat (idx2.map fun i => doors.getD i dummyDoor) sels])
    else some (idx, sels)

/-- Embedding of the module-level function `experiment(doors, strategy,
choice_func, correct)`: the initial selection is `random.choice(doors)`
(`doors[pick 0 % len doors]`, `none` on an empty door list), the elimination
loop runs while more than two doors remain, and the result records whether the
most recent selection equals the correct door. -/
def experiment (doors : List Door) (strat : Strategy) (pick : ℕ → ℕ) (correct : Door) :
    Option MontyHallResult :=
  match doors.get? (pick 0 % doors.length) with
  | none => none
  | some s0 =>
    (experimentLoop doors strat pick correct doors.length 1
        (List.range doors.length) [s0]).map
      (fun out => ⟨out.2.getLastD s0 == correct, correct, out.2⟩)

/-- The experiment configuration: the door list held by a constructed
`MontyHallExperiment` (the `experiment` attribute, a plain function pointer,
carries no state and is omitted). -/
structure MontyHallExperiment where
  doors : List Door
  deriving DecidableEq

/-- The quantity `prob = (1. - existing)/number_of_doors` from
`MontyHallExperiment.__init__`, where `existing` is the sum of the explicitly
assigned probabilities — note the source divides by the total door count `n`,
not by the number of unassigned doors. -/
def MontyHallExperiment.fillProb (ds : List Door) (n : ℕ) : ℚ :=
  (1 - (ds.filterMap (fun d => d.probability)).sum) / (n : ℚ)

/-- The existing-sum check, zero division and filling of unassigned doors from
`MontyHallExperiment.__init__`, with `ds` the doors in hand and `n` the
effective door count. -/
def MontyHallExperiment.initCore (ds : List Door) (n : ℕ) :
    Except Err MontyHallExperiment :=
  if ¬ (ds.filterMap (fun d => d.probability)).sum ≤ 1 then .error .valueError
  else if n = 0 then .error .zeroDivisionError
  else
    .ok ⟨ds.map (fun d => match d.probability with
      | none => { d with probability := some (MontyHallExperiment.fillProb ds n) }
      | some _ => d)⟩

/-- Embedding of `MontyHallExperiment.__init__(*doors, number_of_doors=None)`:
conflict check, then door construction (in the `number_of_doors` branch each
door is built by `Door(1/number_of_doors)`, which can fail its assert), then
`initCore` with the effective door count. -/
def MontyHallExperiment.init (doors : List Door) (number_of_doors : Option ℕ) :
    Except Err MontyHallExperiment :=
  if number_of_doors.getD 0 ≠ 0 ∧ doors ≠ [] then .error .valueError
  else if number_of_doors.getD 0 ≠ 0 then
    match (List.range (number_of_doors.getD 0)).mapM
        (fun i => Door.init (some (1 / (number_of_doors.getD 0 : ℚ))) i) with
    | .error e => .error e
    | .ok ds => MontyHallExperiment.initCore ds (number_of_doors.getD 0)
  else MontyHallExperiment.initCore doors doors.length

/-- The weight a door carries after construction (`d.probability`, totalised
with `0` for the `None` case, which after a successful construction never
occurs). -/
def Door.weight (d : Door) : ℚ := d.probability.getD 0

/-- Embedding of `itertools.accumulate` on rational weights, with running
accumulator `acc`. -/
def accumulateQ : List ℚ → ℚ → List ℚ
  | [], _ => []
  | x :: xs, acc => (acc + x) :: accumulateQ xs (acc + x)

/-- The list `cum_weights = list(accumulate(d.probability for d in doors))`
from `get_correct_doors`. -/
def cumWeights (doors : List Door) : List ℚ :=
  accumulateQ (doors.map Door.weight) 0

/-- The per-draw selection `min(i for i, w in enumerate(cum_weights) if
rand_no < w)` from `get_correct_doors`: the minimum over the qualifying
indices, `none` for the `ValueError` that `min` raises on an empty
sequence. -/
def selectIndex (cum : List ℚ) (r : ℚ) : Option ℕ :=
  ((List.range cum.length).filter (fun i => decide (r < cum.getD i 0))).min?

/-- Embedding of the generator `get_correct_doors(number)`: the draws
`random.random()` are the stream `draws`, consumed at indices `k, k+1, ...`;
each iteration selects `doors[selectIndex cum (draws k)]` and the generator
yields `number` doors in order (errors propagate as `none`). -/
def get_correct_doors (doors : List Door) (draws : ℕ → ℚ) : ℕ → ℕ → Option (List Door)
  | 0, _ => some []
  | number + 1, k =>
    (selectIndex (cumWeights doors) (draws k)).bind fun i =>
      (doors.get? i).bind fun d =>
        (get_correct_doors doors draws number (k + 1)).map fun rest => d :: rest

/-- Kinds of Python callables a caller might pass as `strategy`. -/
inductive PyCallable
  | plainFunction
  | lambdaFunction
  | closureFunction
  | builtinFunction
  | boundMethod
  | callableObject
  deriving DecidableEq

/-- Embedding of `inspect.isfunction`: per the Python documentation it returns
`True` exactly for user-defined function objects (`types.FunctionType`),
"which includes functions created by a lambda expression"; a closure produced
by a nested `def` is also a plain function object.  Builtins, bound methods
and callable instances are not of function type. -/
def isfunction : PyCallable → Bool
  | .plainFunction => true
  | .lambdaFunction => true
  | .closureFunction => true
  | _ => false

/-- The strategy validation performed by `run_simulations` before any trial:
`assert inspect.isfunction(strategy), "strategy must be a function"`. -/
def run_simulations_check (s : PyCallable) : Except Err Unit :=
  if isfunction s then .ok () else .error .assertionError

/-- Embedding of the strategy `never_swap`: return `past_selections[-1]`
(totalised with `dummyDoor` for the empty history the source never passes). -/
def never_swap : Strategy := fun _ sels => sels.getLastD dummyDoor

/-- Embedding of the strategy `always_swap`: the first door of
`[d for d in doors if not d == past_selections[-1]]` (totalised with
`dummyDoor` for the empty-list `IndexError` case, unreachable in a run). -/
def always_swap : Strategy := fun doors sels =>
  (doors.filter (fun d => ! (d == sels.getLastD dummyDoor))).headD dummyDoor

/-- The module-level constant `CLASSICAL_MONTY_HALL =
MontyHallExperiment(number_of_doors=3)`. -/
def CLASSICAL_MONTY_HALL : Except Err MontyHallExperiment :=
  MontyHallExperiment.init [] (some 3)

/-- Concrete doors used in witnesses. -/
def d0 : Door := ⟨0, some (1/3)⟩

/-- Second concrete door. -/
def d1 : Door := ⟨1, some (1/3)⟩

/-- Third concrete door. -/
def d2 : Door := ⟨2, some (1/3)⟩

/-- Concrete three-door set used in witnesses. -/
def doors3 : List Door := [d0, d1, d2]

/-- Concrete two-door set with explicit equal weights, used in witnesses. -/
def doorsHalf : List Door := [⟨0, some (1/2)⟩, ⟨1, some (1/2)⟩]

/-- Sanity check: the pre-built classical instance holds three doors of
weight 1/3 each. -/
lemma classical_eval : CLASSICAL_MONTY_HALL = .ok ⟨doors3⟩ := by decide

/-- Characterisation of `List.min?` on naturals. -/
lemma nat_min?_spec (xs : List ℕ) (a : ℕ) : xs.min? = some a ↔ a ∈ xs ∧ ∀ b ∈ xs, a ≤ b := by
  refine List.min?_eq_some_iff (fun a => Nat.le_refl a) (fun a b => ?_) (fun a b c => Nat.le_min)
  rw [Nat.min_def]
  split <;> simp

/-- On a nonempty list `getLastD` does not depend on the default. -/
lemma getLastD_congr {l : List Door} (a b : Door) (h : l ≠ []) :
    l.getLastD a = l.getLastD b := by
  cases l with
  | nil => exact absurd rfl h
  | cons x xs => rw [List.getLastD_cons, List.getLastD_cons]

/-- Membership in the host's candidate list is exactly: a remaining index whose
door is neither the correct door nor the most recent selection. -/
lemma mem_elimCandidates (doors : List Door) (idx : List ℕ) (c l : Door) (i : ℕ) :
    i ∈ elimCandidates doors idx c l ↔
      i ∈ idx ∧ (doors.getD i dummyDoor == c) = false ∧
        (doors.getD i dummyDoor == l) = false := by
  simp [elimCandidates, List.mem_filter, hostExcluded]

/-- With at most two doors remaining the loop stops at once, for any fuel. -/
lemma experimentLoop_stop {doors : List Door} {strat : Strategy} {pick : ℕ → ℕ}
    {correct : Door} {fuel k : ℕ} {idx : List ℕ} {sels : List Door}
    (h : ¬ 2 < idx.length) :
    experimentLoop doors strat pick correct fuel k idx sels = some (idx, sels) := by
  cases fuel <;> simp [experimentLoop, h]

/-- One iteration of the loop, when the host's chooser returns an index. -/
lemma experimentLoop_step {doors : List Door} {strat : Strategy} {pick : ℕ → ℕ}
    {correct : Door} {fuel k : ℕ} {idx : List ℕ} {sels : List Door} {elim : ℕ}
    (h : 2 < idx.length)
    (hm : (elimCandidates doors idx correct (sels.getLastD dummyDoor)).get?
        (pick k % (elimCandidates doors idx correct (sels.getLastD dummyDoor)).length) =
          some elim) :
    experimentLoop doors strat pick correct (fuel + 1) k idx sels =
      experimentLoop doors strat pick correct fuel (k + 1) (idx.erase elim)
        (sels ++ [strat ((idx.erase elim).map fun i => doors.getD i dummyDoor) sels]) := by
  simp only [experimentLoop, if_pos h, hm]

/-- One iteration of the loop, when the candidate list is empty (the
`IndexError` of `random.choice`). -/
lemma experimentLoop_fail {doors : List Door} {strat : Strategy} {pick : ℕ → ℕ}
    {correct : Door} {fuel k : ℕ} {idx : List ℕ} {sels : List Door}
    (h : 2 < idx.length)
    (hm : (elimCandidates doors idx correct (sels.getLastD dummyDoor)).get?
        (pick k % (elimCandidates doors idx correct (sels.getLastD dummyDoor)).length) =
          none) :
    experimentLoop doors strat pick correct (fuel + 1) k idx sels = none := by
  simp only [experimentLoop, if_pos h, hm]

/-- An index returned by the chooser is a remaining index. -/
lemma elim_mem_idx {doors : List Door} {idx : List ℕ} {c l : Door} {n elim : ℕ}
    (hm : (elimCandidates doors idx c l).get? n = some elim) : elim ∈ idx :=
  ((mem_elimCandidates doors idx c l elim).mp (List.get?_mem hm)).1

/-- Any two sufficient fuels give the loop the same result: the loop needs at
most `idx.length - 2` iterations. -/
lemma loop_fuel_congr (doors : List Door) (strat : Strategy) (pick : ℕ → ℕ) (correct : Door) :
    ∀ (f1 f2 k : ℕ) (idx : List ℕ) (sels : List Door),
      idx.length - 2 ≤ f1 → idx.length - 2 ≤ f2 →
      experimentLoop doors strat pick correct f1 k idx sels =
        experimentLoop doors strat pick correct f2 k idx sels := by
  intro f1
  induction f1 with
  | zero =>
    intro f2 k idx sels h1 h2
    have h : ¬ 2 < idx.length := by omega
    rw [experimentLoop_stop h, experimentLoop_stop h]
  | succ n ih =>
    intro f2 k idx sels h1 h2
    by_cases h : 2 < idx.length
    · cases f2 with
      | zero => omega
      | succ m =>
        cases hm : (elimCandidates doors idx correct (sels.getLastD dummyDoor)).get?
            (pick k % (elimCandidates doors idx correct (sels.getLastD dummyDoor)).length) with
        | none => rw [experimentLoop_fail h hm, experimentLoop_fail h hm]
        | some elim =>
          have hlen : (idx.erase elim).length = idx.length - 1 :=
            List.length_erase_of_mem (elim_mem_idx hm)
          rw [experimentLoop_step h hm, experimentLoop_step h hm]
          exact ih m (k + 1) _ _ (by omega) (by omega)
    · rw [experimentLoop_stop h, experimentLoop_stop h]

/-- The loop only ever appends to the selection history. -/
lemma loop_sels_ne (doors : List Door) (strat : Strategy) (pick : ℕ → ℕ) (correct : Door) :
    ∀ (f k : ℕ) (idx : List ℕ) (sels : List Door) (out : List ℕ × List Door),
      experimentLoop doors strat pick correct f k idx sels = some out →
      sels ≠ [] → out.2 ≠ [] := by
  intro f
  induction f with
  | zero =>
    intro k idx sels out hout hne
    by_cases h : 2 < idx.length
    · simp [experimentLoop, h] at hout
    · rw [experimentLoop_stop h] at hout
      cases hout
      simpa using hne
  | succ n ih =>
    intro k idx sels out hout hne
    by_cases h : 2 < idx.length
    · cases hm : (elimCandidates doors idx correct (sels.getLastD dummyDoor)).get?
          (pick k % (elimCandidates doors idx correct (sels.getLastD dummyDoor)).length) with
      | none => rw [experimentLoop_fail h hm] at hout; cases hout
      | some elim =>
        rw [experimentLoop_step h hm] at hout
        exact ih _ _ _ _ hout (by simp)
    · rw [experimentLoop_stop h] at hout
      cases hout
      simpa using hne

/-- Starting from at least two remaining doors, a completed loop stops with
exactly two doors remaining. -/
lemma loop_final_two (doors : List Door) (strat : Strategy) (pick : ℕ → ℕ) (correct : Door) :
    ∀ (f k : ℕ) (idx : List ℕ) (sels : List Door) (out : List ℕ × List Door),
      2 ≤ idx.length →
      experimentLoop doors strat pick correct f k idx sels = some out →
      out.1.length = 2 := by
  intro f
  induction f with
  | zero =>
    intro k idx sels out h2 hout
    by_cases h : 2 < idx.length
    · simp [experimentLoop, h] at hout
    · rw [experimentLoop_stop h] at hout
      cases hout
      show idx.length = 2
      omega
  | succ n ih =>
    intro k idx sels out h2 hout
    by_cases h : 2 < idx.length
    · cases hm : (elimCandidates doors idx correct (sels.getLastD dummyDoor)).get?
          (pick k % (elimCandidates doors idx correct (sels.getLastD dummyDoor)).length) with
      | none => rw [experimentLoop_fail h hm] at hout; cases hout
      | some elim =>
        have hlen : (idx.erase elim).length = idx.length - 1 :=
          List.length_erase_of_mem (elim_mem_idx hm)
        rw [experimentLoop_step h hm] at hout
        exact ih _ _ _ _ (by omega) hout
    · rw [experimentLoop_stop h] at hout
      cases hout
      show idx.length = 2
      omega

/-- Unfolding of `experiment` once the initial random pick is known. -/
lemma experiment_eq_of_pick {doors : List Door} {strat : Strategy} {pick : ℕ → ℕ}
    {correct : Door} {s0 : Door}
    (h0 : doors.get? (pick 0 % doors.length) = some s0) :
    experiment doors strat pick correct =
      (experimentLoop doors strat pick correct doors.length 1
          (List.range doors.length) [s0]).map
        (fun out => ⟨out.2.getLastD s0 == correct, correct, out.2⟩) := by
  unfold experiment
  rw [h0]

/-- A completed run reports success exactly when its most recent selection is
the correct door; its history is nonempty and its correct door is the input. -/
lemma experiment_some {doors : List Door} {strat : Strategy} {pick : ℕ → ℕ}
    {correct : Door} {r : MontyHallResult}
    (h : experiment doors strat pick correct = some r) :
    r.correct = correct ∧ r.choices ≠ [] ∧
      r.success = (r.choices.getLastD dummyDoor == correct) := by
  cases h0 : doors.get? (pick 0 % doors.length) with
  | none => unfold experiment at h; rw [h0] at h; cases h
  | some s0 =>
    rw [experiment_eq_of_pick h0] at h
    cases hl : experimentLoop doors strat pick correct doors.length 1
        (List.range doors.length) [s0] with
    | none => rw [hl] at h; cases h
    | some out =>
      rw [hl, Option.map_some'] at h
      cases h
      have hne : out.2 ≠ [] :=
        loop_sels_ne doors strat pick correct _ _ _ _ _ hl (by simp)
      exact ⟨rfl, hne, by rw [getLastD_congr s0 dummyDoor hne]⟩

/-- A two-door experiment performs no elimination iteration: the whole history
is the initial random pick and success is decided by that pick alone. -/
lemma experiment_two (doors : List Door) (strat : Strategy) (pick : ℕ → ℕ)
    (correct : Door) (h : doors.length = 2) :
    ∃ s0, doors.get? (pick 0 % doors.length) = some s0 ∧
      experiment doors strat pick correct = some ⟨s0 == correct, correct, [s0]⟩ := by
  have hlt : pick 0 % doors.length < doors.length := Nat.mod_lt _ (by omega)
  refine ⟨doors.get ⟨_, hlt⟩, List.get?_eq_get hlt, ?_⟩
  have hstop : ¬ 2 < (List.range doors.length).length := by
    simp [List.length_range, h]
  rw [experiment_eq_of_pick (List.get?_eq_get hlt), experimentLoop_stop hstop]
  simp

/-- Claim C4: in every elimination iteration the host removes exactly one door
from the remaining set; the removed door is never the correct door and never
the most recently selected door, and it is drawn from exactly the set of
remaining doors satisfying both exclusions. -/
theorem elimination_invariant (doors : List Door) (idx : List ℕ) (correct last : Door)
    (p : ℕ) (hne : elimCandidates doors idx correct last ≠ []) :
    ∃ elim, (elimCandidates doors idx correct last).get?
        (p % (elimCandidates doors idx correct last).length) = some elim ∧
      elim ∈ idx ∧
      (doors.getD elim dummyDoor == correct) = false ∧
      (doors.getD elim dummyDoor == last) = false ∧
      (idx.erase elim).length + 1 = idx.length ∧
      ∀ i, i ∈ elimCandidates doors idx correct last ↔
        (i ∈ idx ∧ (doors.getD i dummyDoor == correct) = false ∧
          (doors.getD i dummyDoor == last) = false) := by
  have hpos : 0 < (elimCandidates doors idx correct last).length :=
    List.length_pos.mpr hne
  have hlt : p % (elimCandidates doors idx correct last).length <
      (elimCandidates doors idx correct last).length := Nat.mod_lt _ hpos
  have hget : (elimCandidates doors idx correct last).get?
      (p % (elimCandidates doors idx correct last).length) =
      some ((elimCandidates doors idx correct last).get ⟨_, hlt⟩) :=
    List.get?_eq_get hlt
  obtain ⟨hmem, hc, hl⟩ :=
    (mem_elimCandidates doors idx correct last _).mp (List.get?_mem hget)
  refine ⟨_, hget, hmem, hc, hl, ?_, fun i => mem_elimCandidates doors idx correct last i⟩
  have := List.length_erase_of_mem hmem
  have : 0 < idx.length := List.length_pos.mpr (fun hnil => by simp [hnil] at hmem)
  omega

/-- Witness for C4 on a concrete three-door state. -/
theorem elimination_invariant_witness :
    elimCandidates doors3 [0, 1, 2] d0 d1 ≠ [] ∧
    (∃ elim, (elimCandidates doors3 [0, 1, 2] d0 d1).get?
        (5 % (elimCandidates doors3 [0, 1, 2] d0 d1).length) = some elim ∧
      elim ∈ [0, 1, 2] ∧
      (doors3.getD elim dummyDoor == d0) = false ∧
      (doors3.getD elim dummyDoor == d1) = false ∧
      (([0, 1, 2].erase elim).length + 1 = [0, 1, 2].length) ∧
      ∀ i, i ∈ elimCandidates doors3 [0, 1, 2] d0 d1 ↔
        (i ∈ [0, 1, 2] ∧ (doors3.getD i dummyDoor == d0) = false ∧
          (doors3.getD i dummyDoor == d1) = false)) :=
  ⟨by decide, elimination_invariant doors3 [0, 1, 2] d0 d1 5 (by decide)⟩

/-- Claim C7: each elimination iteration strictly shrinks the remaining-door
set by one, so the loop needs at most `n - 2` iterations: any two fuel bounds
of at least `idx.length - 2` yield the same (terminated) result. -/
theorem loop_strictly_shrinks_and_bounded (doors : List Door) (strat : Strategy)
    (pick : ℕ → ℕ) (correct : Door) (f1 f2 k : ℕ) (idx : List ℕ) (sels : List Door)
    (h1 : idx.length - 2 ≤ f1) (h2 : idx.length - 2 ≤ f2) :
    (∀ e ∈ elimCandidates doors idx correct (sels.getLastD dummyDoor),
        (idx.erase e).length + 1 = idx.length) ∧
    experimentLoop doors strat pick correct f1 k idx sels =
      experimentLoop doors strat pick correct f2 k idx sels := by
  constructor
  · intro e he
    obtain ⟨hmem, -, -⟩ := (mem_elimCandidates doors idx correct _ e).mp he
    have := List.length_erase_of_mem hmem
    have : 0 < idx.length := List.length_pos.mpr (fun hnil => by simp [hnil] at hmem)
    omega
  · exact loop_fuel_congr doors strat pick correct f1 f2 k idx sels h1 h2

/-- Witness for C7 on a concrete three-door state with two different fuels. -/
theorem loop_strictly_shrinks_and_bounded_witness :
    ([0, 1, 2] : List ℕ).length - 2 ≤ 1 ∧ ([0, 1, 2] : List ℕ).length - 2 ≤ 7 ∧
    ((∀ e ∈ elimCandidates doors3 [0, 1, 2] d0 ([d0].getLastD dummyDoor),
        (([0, 1, 2] : List ℕ).erase e).length + 1 = ([0, 1, 2] : List ℕ).length) ∧
      experimentLoop doors3 never_swap (fun _ => 0) d0 1 1 [0, 1, 2] [d0] =
        experimentLoop doors3 never_swap (fun _ => 0) d0 7 1 [0, 1, 2] [d0]) :=
  ⟨by decide, by decide,
    loop_strictly_shrinks_and_bounded doors3 never_swap (fun _ => 0) d0 1 7 1
      [0, 1, 2] [d0] (by decide) (by decide)⟩

/-- Claim C5: the loop stops once exactly two doors remain and a completed run
succeeds exactly when its most recent selection is the correct door; a
two-door set performs zero elimination iterations and the outcome is decided
solely by the initial uniformly random pick. -/
theorem terminal_two_doors (doors : List Door) (strat : Strategy) (pick : ℕ → ℕ)
    (correct : Door) :
    (∀ r, experiment doors strat pick correct = some r →
      r.correct = correct ∧ r.choices ≠ [] ∧
        r.success = (r.choices.getLastD dummyDoor == correct)) ∧
    (∀ f k idx sels out, 2 ≤ List.length idx →
      experimentLoop doors strat pick correct f k idx sels = some out →
      out.1.length = 2) ∧
    (doors.length = 2 → ∃ s0, doors.get? (pick 0 % doors.length) = some s0 ∧
      experiment doors strat pick correct = some ⟨s0 == correct, correct, [s0]⟩) :=
  ⟨fun _ h => experiment_some h,
    fun f k idx sels out h2 hout => loop_final_two doors strat pick correct f k idx sels out h2 hout,
    fun h => experiment_two doors strat pick correct h⟩

/-- Witness for C5 on a concrete two-door experiment. -/
theorem terminal_two_doors_witness :
    ([d0, d1] : List Door).length = 2 ∧
    (∃ s0, ([d0, d1] : List Door).get? ((fun _ => 0) 0 % ([d0, d1] : List Door).length) = some s0 ∧
      experiment [d0, d1] never_swap (fun _ => 0) d0 = some ⟨s0 == d0, d0, [s0]⟩) :=
  ⟨rfl, (terminal_two_doors [d0, d1] never_swap (fun _ => 0) d0).2.2 rfl⟩

/-- The sampler's per-draw selection is exactly the first index whose
cumulative weight strictly exceeds the draw (the minimum over qualifying
indices is the least, hence first, such index). -/
lemma selectIndex_eq_some_iff (cum : List ℚ) (r : ℚ) (i : ℕ) :
    selectIndex cum r = some i ↔
      i < cum.length ∧ r < cum.getD i 0 ∧ ∀ j, j < i → ¬ r < cum.getD j 0 := by
  unfold selectIndex
  rw [nat_min?_spec]
  constructor
  · rintro ⟨hmem, hmin⟩
    obtain ⟨hrange, hqual⟩ := List.mem_filter.mp hmem
    have hi : i < cum.length := List.mem_range.mp hrange
    refine ⟨hi, of_decide_eq_true hqual, ?_⟩
    intro j hj hqj
    have hjmem : j ∈ (List.range cum.length).filter (fun i => decide (r < cum.getD i 0)) :=
      List.mem_filter.mpr ⟨List.mem_range.mpr (lt_trans hj hi), decide_eq_true hqj⟩
    exact absurd (hmin j hjmem) (by omega)
  · rintro ⟨hi, hq, hleast⟩
    refine ⟨List.mem_filter.mpr ⟨List.mem_range.mpr hi, decide_eq_true hq⟩, ?_⟩
    intro b hb
    obtain ⟨hbr, hbq⟩ := List.mem_filter.mp hb
    by_contra hlt
    push_neg at hlt
    exact hleast b (by omega) (of_decide_eq_true hbq)

/-- An index returned by the sampler is in range. -/
lemma selectIndex_lt {cum : List ℚ} {r : ℚ} {i : ℕ} (h : selectIndex cum r = some i) :
    i < cum.length := ((selectIndex_eq_some_iff cum r i).mp h).1

/-- `accumulateQ` preserves length. -/
lemma accumulateQ_length (xs : List ℚ) : ∀ acc, (accumulateQ xs acc).length = xs.length := by
  induction xs with
  | nil => intro acc; rfl
  | cons x xs ih => intro acc; simp [accumulateQ, ih]

/-- The cumulative-weight list has one entry per door. -/
lemma cumWeights_length (doors : List Door) : (cumWeights doors).length = doors.length := by
  simp [cumWeights, accumulateQ_length]

/-- Entries of `accumulateQ` are the running prefix sums. -/
lemma accumulateQ_getD (xs : List ℚ) : ∀ (acc : ℚ) (i : ℕ), i < xs.length →
    (accumulateQ xs acc).getD i 0 = acc + (xs.take (i + 1)).sum := by
  induction xs with
  | nil => intro acc i h; simp at h
  | cons x xs ih =>
    intro acc i h
    cases i with
    | zero => simp [accumulateQ]
    | succ n =>
      simp only [accumulateQ, List.getD_cons_succ, List.take_succ_cons, List.sum_cons]
      rw [ih (acc + x) n (by simpa using h)]
      ring

/-- The cumulative weights are the prefix sums of the door weights. -/
lemma cumWeights_getD (doors : List Door) (i : ℕ) (h : i < doors.length) :
    (cumWeights doors).getD i 0 = ((doors.map Door.weight).take (i + 1)).sum := by
  rw [cumWeights, accumulateQ_getD _ _ _ (by simpa using h), zero_add]

/-- When every draw selects an index, the generator yields exactly the
requested number of doors. -/
lemma get_correct_doors_some (doors : List Door) (draws : ℕ → ℚ) :
    ∀ (number k : ℕ),
      (∀ j, j < number → (selectIndex (cumWeights doors) (draws (k + j))).isSome = true) →
      ∃ l, get_correct_doors doors draws number k = some l ∧ l.length = number := by
  intro number
  induction number with
  | zero => intro k h; exact ⟨[], rfl, rfl⟩
  | succ n ih =>
    intro k h
    obtain ⟨i, hi⟩ := Option.isSome_iff_exists.mp (h 0 (by omega))
    have hi' : selectIndex (cumWeights doors) (draws k) = some i := hi
    have hlt : i < doors.length := by
      have := selectIndex_lt hi
      rwa [cumWeights_length] at this
    obtain ⟨rest, hrest, hlen⟩ := ih (k + 1) (fun j hj => by
      have := h (j + 1) (by omega)
      have heq : k + (j + 1) = k + 1 + j := by omega
      rwa [heq] at this)
    refine ⟨doors.get ⟨i, hlt⟩ :: rest, ?_, by simp [hlen]⟩
    simp only [get_correct_doors, hi', Option.some_bind, List.get?_eq_get hlt, hrest,
      Option.map_some']

/-- Claim C6: `get_correct_doors(number)` yields exactly `number` sampled
doors (granted every draw admits a selection), the per-draw selection is the
first index whose cumulative weight strictly exceeds the draw, and the
cumulative weights are the prefix sums of the door weights in door-set
order. -/
theorem sampler_count_and_first_index (doors : List Door) (draws : ℕ → ℚ) (number : ℕ)
    (h : ∀ k, k < number → (selectIndex (cumWeights doors) (draws k)).isSome = true) :
    (∃ l, get_correct_doors doors draws number 0 = some l ∧ l.length = number) ∧
    (∀ (r : ℚ) (i : ℕ), selectIndex (cumWeights doors) r = some i ↔
      (i < (cumWeights doors).length ∧ r < (cumWeights doors).getD i 0 ∧
        ∀ j, j < i → ¬ r < (cumWeights doors).getD j 0)) ∧
    (∀ i, i < doors.length →
      (cumWeights doors).getD i 0 = ((doors.map Door.weight).take (i + 1)).sum) := by
  refine ⟨?_, fun r i => selectIndex_eq_some_iff (cumWeights doors) r i,
    fun i hi => cumWeights_getD doors i hi⟩
  exact get_correct_doors_some doors draws number 0 (fun j hj => by
    have := h j hj
    rwa [show j = 0 + j by omega] at this)

/-- Witness for C6 on a concrete weighted door set and constant draw 1/4. -/
theorem sampler_count_and_first_index_witness :
    (∀ k, k < 2 → (selectIndex (cumWeights doorsHalf)
        ((fun _ => (1/4 : ℚ)) k)).isSome = true) ∧
    ((∃ l, get_correct_doors doorsHalf (fun _ => (1/4 : ℚ)) 2 0 = some l ∧ l.length = 2) ∧
      (∀ (r : ℚ) (i : ℕ), selectIndex (cumWeights doorsHalf) r = some i ↔
        (i < (cumWeights doorsHalf).length ∧ r < (cumWeights doorsHalf).getD i 0 ∧
          ∀ j, j < i → ¬ r < (cumWeights doorsHalf).getD j 0)) ∧
      (∀ i, i < doorsHalf.length →
        (cumWeights doorsHalf).getD i 0 =
          ((doorsHalf.map Door.weight).take (i + 1)).sum)) :=
  ⟨by decide, sampler_count_and_first_index doorsHalf (fun _ => (1/4 : ℚ)) 2 (by decide)⟩

/-- Claim C1 (evaluation at the failing input): constructing from
`Door(1/2), Door()` — an explicit weight strictly in (0,1) with sum at most 1
plus one unassigned door — succeeds, but the remaining mass `1 - 1/2` is
divided by the TOTAL door count 2, so the unassigned door receives 1/4 and
all weights sum to 3/4, not 1. -/
theorem construction_partial_weights_eval :
    MontyHallExperiment.init [⟨0, some (1/2)⟩, ⟨1, none⟩] none =
      .ok ⟨[⟨0, some (1/2)⟩, ⟨1, some (1/4)⟩]⟩ ∧
    (([⟨0, some (1/2)⟩, ⟨1, some (1/4)⟩] : List Door).map Door.weight).sum = 3/4 ∧
    ¬ (([⟨0, some (1/2)⟩, ⟨1, some (1/4)⟩] : List Door).map Door.weight).sum = 1 :=
  ⟨by decide, by decide, by decide⟩

/-- Claim C2 (evaluation at the failing input): for the constructor-reachable
cumulative-weight list [1/2, 3/4] (from `Door(1/2), Door()`) and the draw
4/5 ∈ [0,1), which is at or above the final cumulative weight, the sampler
selects no door at all — `min` of an empty generator raises `ValueError`;
nothing clamps the selection to the last door. -/
theorem sampler_no_clamp_eval :
    ∃ e, MontyHallExperiment.init [⟨0, some (1/2)⟩, ⟨1, none⟩] none = .ok e ∧
      cumWeights e.doors = [1/2, 3/4] ∧
      (0 ≤ (4/5 : ℚ) ∧ (4/5 : ℚ) < 1) ∧
      (cumWeights e.doors).getLastD 0 ≤ (4/5 : ℚ) ∧
      selectIndex (cumWeights e.doors) (4/5) = none :=
  ⟨⟨[⟨0, some (1/2)⟩, ⟨1, some (1/4)⟩]⟩, by decide, by decide, by decide, by decide,
    by decide⟩

/-- Claim C3 counterexample: a lambda — and likewise a closure — passes the
strategy validation of `run_simulations` unrejected, because
`inspect.isfunction` is true of any Python function object, including those
created by lambda expressions. -/
theorem strategy_check_accepts_lambda :
    run_simulations_check .lambdaFunction = .ok () ∧
    run_simulations_check .closureFunction = .ok () :=
  ⟨rfl, rfl⟩

/-- Claim C3 (amended): before any trial runs, `run_simulations` asserts
`inspect.isfunction(strategy)`, which accepts every Python function object —
plain functions, lambdas and closures alike — and rejects non-function
callables (builtins, bound methods, callable instances) with an assertion
error. -/
theorem strategy_check_exactly_isfunction :
    run_simulations_check .plainFunction = .ok () ∧
    run_simulations_check .lambdaFunction = .ok () ∧
    run_simulations_check .closureFunction = .ok () ∧
    run_simulations_check .builtinFunction = .error .assertionError ∧
    run_simulations_check .boundMethod = .error .assertionError ∧
    run_simulations_check .callableObject = .error .assertionError :=
  ⟨rfl, rfl, rfl, rfl, rfl, rfl⟩

/-- Claim C8: construction errors are raised eagerly at construction time:
supplying both explicit doors and a (nonzero) door count raises the
configuration `ValueError`; explicit weights summing above 1 raise the
configuration `ValueError`; and an individual explicit weight not strictly
between 0 and 1 fails the assert when the `Door` itself is constructed. -/
theorem construction_errors_eager :
    (∀ (ds : List Door) (n : ℕ), ds ≠ [] → 0 < n →
      MontyHallExperiment.init ds (some n) = .error .valueError) ∧
    (∀ ds : List Door, ¬ (ds.filterMap (fun d => d.probability)).sum ≤ 1 →
      MontyHallExperiment.init ds none = .error .valueError) ∧
    (∀ (p : ℚ) (label : ℕ), ¬ (0 < p ∧ p < 1) →
      Door.init (some p) label = .error .assertionError) := by
  refine ⟨?_, ?_, ?_⟩
  · intro ds n hne hn
    have hc : (some n : Option ℕ).getD 0 ≠ 0 ∧ ds ≠ [] := by
      refine ⟨?_, hne⟩
      simp only [Option.getD_some]
      omega
    unfold MontyHallExperiment.init
    rw [if_pos hc]
  · intro ds hsum
    have hc1 : ¬ ((none : Option ℕ).getD 0 ≠ 0 ∧ ds ≠ []) := fun h => h.1 rfl
    have hc2 : ¬ ((none : Option ℕ).getD 0 ≠ 0) := fun h => h rfl
    unfold MontyHallExperiment.init
    rw [if_neg hc1, if_neg hc2]
    unfold MontyHallExperiment.initCore
    rw [if_pos hsum]
  · intro p label hp
    show (if 0 < p ∧ p < 1 then (Except.ok ⟨label, some p⟩ : Except Err Door)
      else Except.error Err.assertionError) = Except.error Err.assertionError
    rw [if_neg hp]

/-- Witness for C8 at concrete inputs: a door plus `number_of_doors=2`;
explicit weights 3/5 and 3/5 summing to 6/5 > 1; an explicit weight of 1. -/
theorem construction_errors_eager_witness :
    MontyHallExperiment.init [⟨0, none⟩] (some 2) = .error .valueError ∧
    MontyHallExperiment.init [⟨0, some (3/5)⟩, ⟨1, some (3/5)⟩] none =
      .error .valueError ∧
    Door.init (some 1) 7 = .error .assertionError :=
  ⟨construction_errors_eager.1 [⟨0, none⟩] 2 (by decide) (by decide),
    construction_errors_eager.2.1 [⟨0, some (3/5)⟩, ⟨1, some (3/5)⟩] (by decide),
    construction_errors_eager.2.2 1 7 (by decide)⟩

/-- Claim C10: constructing with no doors and no door count raises neither the
documented configuration `ValueError` nor a validation error, but fails with
the `ZeroDivisionError` from the unguarded `(1. - existing)/number_of_doors`
with `number_of_doors = 0`. -/
theorem empty_construction_zero_division :
    MontyHallExperiment.init [] none = .error .zeroDivisionError ∧
    MontyHallExperiment.init [] none ≠ .error .valueError ∧
    MontyHallExperiment.init [] none ≠ .error .assertionError :=
  ⟨by decide, by decide, by decide⟩

/-- Deterministic core of the classical 2/3 statistic: on the three-door
equal-weight set, for every correct door and every choice of the two random
picks a trial consumes, an `always_swap` trial succeeds exactly when the
initial pick lands on a door other than the correct one. -/
lemma classical_always_swap_success_iff :
    ∀ j, j < 3 → ∀ a, a < 3 → ∀ b, b < 3 →
      (experiment doors3 always_swap (fun k => if k = 0 then a else b)
          (doors3.getD j dummyDoor)).map MontyHallResult.success =
        some (! (doors3.getD a dummyDoor == doors3.getD j dummyDoor)) := by decide

/-- Exactly two of the three equally likely initial picks differ from the
correct door, so the per-trial `always_swap` success probability is 2/3. -/
lemma classical_always_swap_two_of_three :
    ∀ j, j < 3 → ((List.range 3).filter
      (fun a => ! (doors3.getD a dummyDoor == doors3.getD j dummyDoor))).length = 2 := by
  decide

/-- Deterministic core of the classical 1/3 statistic: a `never_swap` trial
succeeds exactly when the initial pick lands on the correct door. -/
lemma classical_never_swap_success_iff :
    ∀ j, j < 3 → ∀ a, a < 3 → ∀ b, b < 3 →
      (experiment doors3 never_swap (fun k => if k = 0 then a else b)
          (doors3.getD j dummyDoor)).map MontyHallResult.success =
        some (doors3.getD a dummyDoor == doors3.getD j dummyDoor) := by decide
